import Mathlib

/-!
Verification of the reproserver experiment/upload/run lifecycle manager.

The definitions below are a shallow embedding of the handlers in
`reproserver/web/views.py`: `store_uploaded_rpz`, `StartRun.post`,
`ReproduceLocal.get` and `ResultsJson.get`.  Python strings are modelled as
Lean `String`s, and the Python string builtins used by the code
(`str.startswith`, slicing, `str.strip`, `str.split`, `int(...)`) are
re-implemented below over `List Char` with structural recursion so that all
definitions evaluate inside the kernel.  The database session is modelled by
an explicit `Db` record; raising an exception before `db.commit()` leaves the
committed database unchanged, while S3 blob writes happen outside the
transaction and are therefore threaded separately.

Components of the repository that are not part of the provided source
(the `database` module's Short-ID codec and `Run.get_log`, and the external
`rpz_metadata` extractor) are modelled from the specification; their doc
comments say so explicitly.
-/

namespace Reproserver

/-- Characters dropped while no whitespace test fails: models one side of
Python `str.strip`. -/
def trimChars (l : List Char) : List Char :=
  ((l.dropWhile Char.isWhitespace).reverse.dropWhile Char.isWhitespace).reverse

/-- Models Python `str.strip()` (also the stripping Tornado applies to body
arguments): removes leading and trailing whitespace. -/
def pyStrip (s : String) : String :=
  String.mk (trimChars s.toList)

/-- Helper for `pyStartsWith`, structural over both character lists. -/
def startsWithChars : List Char → List Char → Bool
  | _, [] => true
  | [], _ :: _ => false
  | c :: cs, p :: ps => c == p && startsWithChars cs ps

/-- Models Python `str.startswith(pre)`. -/
def pyStartsWith (s pre : String) : Bool :=
  startsWithChars s.toList pre.toList

/-- Models Python character slicing `s[n:]`. -/
def pyDrop (s : String) (n : Nat) : String :=
  String.mk (s.toList.drop n)

/-- Helper for `pySplitWs`: accumulates the current maximal run of
non-whitespace characters (reversed) and emits it at each whitespace
boundary.  Models Python `str.split()` with no argument. -/
def wsTokens : List Char → List Char → List (List Char)
  | [], cur => if cur.isEmpty then [] else [cur.reverse]
  | c :: cs, cur =>
    if c.isWhitespace then
      if cur.isEmpty then wsTokens cs [] else cur.reverse :: wsTokens cs []
    else wsTokens cs (c :: cur)

/-- Models Python `str.split()`: maximal whitespace-separated tokens, empty
tokens never produced. -/
def pySplitWs (s : String) : List String :=
  (wsTokens s.toList []).map String.mk

/-- Digit scanner for `pythonInt?`: `acc` is the value of the digits read so
far.  A single underscore is allowed between two digits, as in Python 3
integer literals. -/
def pyGo (acc : Nat) : List Char → Option Nat
  | [] => some acc
  | c :: cs =>
    if c.isDigit then pyGo (acc * 10 + (c.toNat - 48)) cs
    else if c == '_' then
      match cs with
      | c2 :: cs2 =>
        if c2.isDigit then pyGo (acc * 10 + (c2.toNat - 48)) cs2 else none
      | [] => none
    else none

/-- Parses a non-empty digit string (with optional single underscores
between digits), as Python `int` does after sign handling. -/
def pyDigits : List Char → Option Nat
  | [] => none
  | c :: cs => if c.isDigit then pyGo (c.toNat - 48) cs else none

/-- Models Python `int(s)` in base 10: strips whitespace, accepts an
optional sign followed by digits, fails (raises `ValueError`) otherwise. -/
def pythonInt? (s : String) : Option Int :=
  match trimChars s.toList with
  | '+' :: rest => (pyDigits rest).map Int.ofNat
  | '-' :: rest => (pyDigits rest).map fun n => -(n : Int)
  | l => (pyDigits l).map Int.ofNat

/-- Modelled from the spec: the Short-ID codec of the `database` module is
not part of the provided source.  Per the spec it is "a bijection between a
monotonically increasing integer primary key and a compact, URL-safe
string", "namespaced per entity type", with the exact alphabet left open.
We use base 36 over `0-9a-z`, little-endian, with a namespace character in
front.  `digitChar36 d` is the character for digit `d < 36`. -/
def digitChar36 (d : Nat) : Char :=
  if d < 10 then Char.ofNat (48 + d) else Char.ofNat (97 + d - 10)

/-- Modelled from the spec: inverse of `digitChar36`; `none` for a character
outside the codec alphabet. -/
def decVal (c : Char) : Option Nat :=
  if '0' ≤ c ∧ c ≤ '9' then some (c.toNat - 48)
  else if 'a' ≤ c ∧ c ≤ 'z' then some (c.toNat - 97 + 10)
  else none

/-- Base-36 digits of `n`, least significant first, via a fuel argument so
that the definition is structurally recursive (the fuel `n` always
suffices). -/
def encDigitsFuel : Nat → Nat → List Nat
  | 0, n => [n % 36]
  | fuel + 1, n => if n < 36 then [n] else n % 36 :: encDigitsFuel fuel (n / 36)

/-- Base-36 digits of `n`, least significant first. -/
def encDigits (n : Nat) : List Nat :=
  encDigitsFuel n n

/-- Modelled from the spec: value of a little-endian digit-character string;
fails on the empty string or on any character outside the alphabet. -/
def decChars : List Char → Option Nat
  | [] => none
  | c :: cs =>
    match decVal c, cs with
    | none, _ => none
    | some d, [] => some d
    | some d, _ :: _ => (decChars cs).map fun v => d + 36 * v

/-- Modelled from the spec: `encode(id)` of the Short-ID codec instance with
namespace character `ns`. -/
def encode_short (ns : Char) (n : Nat) : String :=
  String.mk (ns :: (encDigits n).map digitChar36)

/-- Modelled from the spec: `decode(string)` of the Short-ID codec instance
with namespace character `ns`; `none` models the `ValueError`
(`InvalidIdError`) raised on malformed input. -/
def decode_short (ns : Char) (s : String) : Option Nat :=
  match s.toList with
  | [] => none
  | c :: cs => if c = ns then decChars cs else none

/-- A declared parameter of an experiment: name, optional flag. -/
structure ParamSpec where
  name : String
  optional : Bool
deriving DecidableEq, Repr

/-- A `Path` row: a file declared by an experiment, flagged as input. -/
structure PathRow where
  name : String
  is_input : Bool
deriving DecidableEq, Repr

/-- An `Experiment` row, keyed by content hash. -/
structure Experiment where
  hash : String
  parameters : List ParamSpec
  paths : List PathRow
  last_access : Nat
deriving DecidableEq, Repr

/-- An `Upload` row: one submission event referencing an experiment. -/
structure Upload where
  id : Nat
  experiment_hash : String
  filename : String
  submitted_ip : String
  last_access : Nat
deriving DecidableEq, Repr

/-- Modelled from the spec: `Upload.short_id` (the codec is not in the
provided source); the Upload codec instance uses namespace `'u'`. -/
def Upload.short_id (u : Upload) : String :=
  encode_short 'u' u.id

/-- A `ParameterValue` row bound to a run. -/
structure ParameterValue where
  name : String
  value : String
deriving DecidableEq, Repr

/-- An `InputFile` row bound to a run. -/
structure InputFile where
  hash : String
  name : String
  size : Nat
deriving DecidableEq, Repr

/-- A `RunPort` row bound to a run. -/
structure RunPort where
  port_number : Int
deriving DecidableEq, Repr

/-- A `Run` row with its owned children and progress/log state. -/
structure Run where
  id : Nat
  experiment_hash : String
  upload_id : Nat
  submitted_ip : String
  parameter_values : List ParameterValue
  input_files : List InputFile
  ports : List RunPort
  started : Bool
  done : Bool
  progress_percent : Int
  progress_text : String
  log : List Char
deriving DecidableEq, Repr

/-- Modelled from the spec: `Run.short_id`; the Run codec instance uses
namespace `'r'`. -/
def Run.short_id (r : Run) : String :=
  encode_short 'r' r.id

/-- The committed relational state plus the object store.  `blobs` is the
list of `(store, key)` pairs written to S3 (writes to it are not covered by
the DB transaction). -/
structure Db where
  experiments : List Experiment
  uploads : List Upload
  runs : List Run
  nextUploadId : Nat
  nextRunId : Nat
  blobs : List (String × String)
deriving DecidableEq, Repr

/-- Modelled from the spec: `rpz_metadata.make_experiment` (external
metadata extractor, not in the provided source).  The extractor is a
function from the content hash to the declared parameters and paths;
`none` models the `InvalidPackage` exception. -/
def make_experiment (meta : String → String → Option (List ParamSpec × List PathRow))
    (filehash filename : String) (now : Nat) : Option Experiment :=
  (meta filehash filename).map fun d => ⟨filehash, d.1, d.2, now⟩

/-- Error raised by `store_uploaded_rpz` (`rpz_metadata.InvalidPackage`). -/
inductive UploadError
  | invalidPackage
deriving DecidableEq, Repr

/-- Embedding of `store_uploaded_rpz` (views.py lines 51-96).  Looks the
experiment up by hash; if found only its `last_access` is updated; otherwise
the extractor runs (its failure aborts with nothing committed), the
experiment row is staged and the package blob is written to the
`"experiments"` store.  In both success paths an `Upload` row is added and
the transaction commits; the returned string is `upload.short_id`. -/
def store_uploaded_rpz (meta : String → String → Option (List ParamSpec × List PathRow))
    (db : Db) (filename filehash orig_filename remote_ip : String) (now : Nat) :
    Db × Except UploadError String :=
  match db.experiments.find? (fun e => e.hash = filehash) with
  | some _ =>
    let upload : Upload :=
      ⟨db.nextUploadId, filehash, orig_filename, remote_ip, now⟩
    let db' : Db :=
      { db with
        experiments := db.experiments.map fun e =>
          if e.hash = filehash then { e with last_access := now } else e
        uploads := db.uploads ++ [upload]
        nextUploadId := db.nextUploadId + 1 }
    (db', .ok upload.short_id)
  | none =>
    match make_experiment meta filehash filename now with
    | none => (db, .error .invalidPackage)
    | some exp =>
      let upload : Upload :=
        ⟨db.nextUploadId, filehash, orig_filename, remote_ip, now⟩
      let db' : Db :=
        { db with
          experiments := db.experiments ++ [exp]
          blobs := db.blobs ++ [("experiments", filehash)]
          uploads := db.uploads ++ [upload]
          nextUploadId := db.nextUploadId + 1 }
      (db', .ok upload.short_id)

/-- The `ValueError`s raised during run creation (views.py lines 379-448). -/
inductive RunError
  | unknownParameter (key : String)
  | missingParameters (names : List String)
  | unknownInputFile (key : String)
  | invalidPort (token : String)
deriving DecidableEq, Repr

/-- The children staged on the new `Run` before the commit. -/
structure StagedRun where
  parameter_values : List ParameterValue
  input_files : List InputFile
  ports : List RunPort
deriving DecidableEq, Repr

/-- Names of all declared parameters of an experiment (`params` in the
code). -/
def declaredParamNames (e : Experiment) : List String :=
  e.parameters.map ParamSpec.name

/-- Names of the mandatory (non-optional) parameters (`params_unset` as
initialised by the code). -/
def mandatoryParamNames (e : Experiment) : List String :=
  (e.parameters.filter fun p => !p.optional).map ParamSpec.name

/-- Names of the declared input paths of an experiment (`input_files` set in
the code). -/
def inputFileNames (e : Experiment) : List String :=
  (e.paths.filter PathRow.is_input).map PathRow.name

/-- Embedding of the parameter loop (views.py lines 379-390): iterates the
body arguments in order; keys without the `param_` prefix are ignored; a key
whose value list is empty is skipped; an undeclared name raises
`Unknown parameter <key>`; otherwise a `ParameterValue` holding the last
supplied value is staged and the name is discarded from `unset`. -/
def paramLoop (params : List String) :
    List (String × List String) → List ParameterValue → List String →
    Except RunError (List ParameterValue × List String)
  | [], values, unset => .ok (values, unset)
  | (k, v) :: rest, values, unset =>
    if pyStartsWith k "param_" then
      if v.isEmpty then paramLoop params rest values unset
      else
        let name := pyDrop k 6
        if name ∈ params then
          paramLoop params rest (values ++ [⟨name, v.getLastD ""⟩])
            (unset.filter fun n => n ≠ name)
        else .error (.unknownParameter k)
    else paramLoop params rest values unset

/-- Embedding of the input-file loop (views.py lines 405-434): entries with
no file are skipped, otherwise the first file is taken; a key without the
`inputfile_` prefix or with an undeclared name raises
`Unknown input file <key>`; otherwise the body is hashed (the hash function
is a parameter of the model), the bytes are written to the `"inputs"` store
and an `InputFile` row is staged.  The blob writes performed so far are
returned even when the loop fails, since they happen outside the DB
transaction. -/
def fileLoop (hashFn : String → String) (inputNames : List String) :
    List (String × List String) → List InputFile → List (String × String) →
    List (String × String) × Except RunError (List InputFile)
  | [], rows, blobs => (blobs, .ok rows)
  | (k, bodies) :: rest, rows, blobs =>
    match bodies with
    | [] => fileLoop hashFn inputNames rest rows blobs
    | body :: _ =>
      if !pyStartsWith k "inputfile_" || pyDrop k 10 ∉ inputNames then
        (blobs, .error (.unknownInputFile k))
      else
        let h := hashFn body
        fileLoop hashFn inputNames rest
          (rows ++ [⟨h, pyDrop k 10, body.length⟩])
          (blobs ++ [("inputs", h)])

/-- Embedding of the port loop (views.py lines 437-448): each token is
stripped; empty tokens are skipped; a token that does not parse as an
integer in `[1, 65535]` raises `Invalid port number <token>`; otherwise a
`RunPort` row is staged. -/
def portLoop : List String → List RunPort → Except RunError (List RunPort)
  | [], acc => .ok acc
  | t :: rest, acc =>
    let t' := pyStrip t
    if t' = "" then portLoop rest acc
    else
      match pythonInt? t' with
      | none => .error (.invalidPort t')
      | some p =>
        if 1 ≤ p ∧ p ≤ 65535 then portLoop rest (acc ++ [⟨p⟩])
        else .error (.invalidPort t')

/-- Models Tornado `get_body_argument(k, dflt)`: the last value supplied for
key `k`, stripped, or the default. -/
def getBodyArgument (args : List (String × List String)) (k dflt : String) :
    String :=
  match args.find? fun kv => kv.1 = k with
  | some kv =>
    match kv.2.getLast? with
    | some v => pyStrip v
    | none => dflt
  | none => dflt

/-- The five validation steps of `StartRun.post` in order (views.py lines
370-448), producing the staged children on success, together with the blob
writes performed (which outlive a failure). -/
def startRunValidate (hashFn : String → String) (exp : Experiment)
    (args files : List (String × List String)) :
    List (String × String) × Except RunError StagedRun :=
  match paramLoop (declaredParamNames exp) args [] (mandatoryParamNames exp) with
  | .error e => ([], .error e)
  | .ok (values, unset) =>
    if unset.isEmpty then
      match fileLoop hashFn (inputFileNames exp) files [] [] with
      | (blobs, .error e) => (blobs, .error e)
      | (blobs, .ok rows) =>
        match portLoop (pySplitWs (getBodyArgument args "ports" "")) [] with
        | .error e => (blobs, .error e)
        | .ok ports => (blobs, .ok ⟨values, rows, ports⟩)
    else ([], .error (.missingParameters unset))

/-- Outcome of `StartRun.post`: 404 page, uncaught `ValueError` (500), or
the redirect to the results page carrying the run's Short-ID. -/
inductive StartResponse
  | notFound
  | serverError (e : RunError)
  | redirect (runShortId : String)
deriving DecidableEq, Repr

/-- Embedding of `StartRun.post` (views.py lines 335-458): decode the upload
Short-ID, look the upload and its experiment up, run the validation steps,
and only on success commit the new `Run` with all its children (plus the
`last_access` touches) in a single step; the blob writes are applied to the
object store even on failure. -/
def startRunPost (hashFn : String → String) (db : Db)
    (upload_short_id : String) (args files : List (String × List String))
    (remote_ip : String) (now : Nat) : Db × StartResponse :=
  match decode_short 'u' upload_short_id with
  | none => (db, .notFound)
  | some upload_id =>
    match db.uploads.find? fun u => u.id = upload_id with
    | none => (db, .notFound)
    | some upload =>
      match db.experiments.find? fun e => e.hash = upload.experiment_hash with
      | none => (db, .notFound)
      | some exp =>
        match startRunValidate hashFn exp args files with
        | (blobWrites, .error e) =>
          ({ db with blobs := db.blobs ++ blobWrites }, .serverError e)
        | (blobWrites, .ok staged) =>
          let run : Run :=
            { id := db.nextRunId
              experiment_hash := exp.hash
              upload_id := upload_id
              submitted_ip := remote_ip
              parameter_values := staged.parameter_values
              input_files := staged.input_files
              ports := staged.ports
              started := false
              done := false
              progress_percent := 0
              progress_text := ""
              log := [] }
          let db' : Db :=
            { db with
              blobs := db.blobs ++ blobWrites
              uploads := db.uploads.map fun u =>
                if u.id = upload_id then { u with last_access := now } else u
              experiments := db.experiments.map fun e =>
                if e.hash = exp.hash then { e with last_access := now } else e
              runs := db.runs ++ [run]
              nextRunId := db.nextRunId + 1 }
          (db', .redirect run.short_id)

/-- Embedding of the progress derivation of `ResultsJson.get` (views.py
lines 587-598): start from the stored fields; `done` forces
`(100, "Completed")`; otherwise an empty stored text is replaced by
`(0, "Queued")` or `(40, "Starting")` depending on `started`. -/
def resultsJsonStatus (run : Run) : Int × String :=
  let progress_percent := run.progress_percent
  let progress_text := run.progress_text
  if run.done then (100, "Completed")
  else if progress_text = "" then
    if !run.started then (0, "Queued") else (40, "Starting")
  else (progress_percent, progress_text)

/-- The two 404 branches of `ResultsJson.get` (views.py lines 569-585):
malformed Short-ID versus decoded id with no matching row. -/
inductive LookupError
  | invalidId
  | notFound
deriving DecidableEq, Repr

/-- Embedding of the lookup part of `ResultsJson.get`: decode the run
Short-ID (failure models the `ValueError` branch), then fetch the row
(absence models the `run is None` branch). -/
def resultsJsonLookup (db : Db) (run_short_id : String) :
    Except LookupError Run :=
  match decode_short 'r' run_short_id with
  | none => .error .invalidId
  | some run_id =>
    match db.runs.find? fun r => r.id = run_id with
    | none => .error .notFound
    | some run => .ok run

/-- Modelled from the spec: `Run.get_log(fromOffset)` of the `database`
module is not in the provided source; per the spec it "returns all log
content at or after `fromOffset`" of the append-only log. -/
def Run.get_log (r : Run) (fromOffset : Nat) : List Char :=
  r.log.drop fromOffset

/-- Modelled from the spec: appending content to the append-only per-run
log (done by the runner between polls). -/
def Run.appendLog (r : Run) (content : List Char) : Run :=
  { r with log := r.log ++ content }

/-- Every digit below 36 decodes back to itself through the codec
alphabet. -/
theorem decVal_digitChar36 {d : Nat} (h : d < 36) :
    decVal (digitChar36 d) = some d := by
  have key : ∀ d : Fin 36, decVal (digitChar36 d.val) = some d.val := by decide
  exact key ⟨d, h⟩

/-- The digit expansion is never empty. -/
theorem encDigitsFuel_ne_nil (fuel n : Nat) : encDigitsFuel fuel n ≠ [] := by
  cases fuel with
  | zero => simp [encDigitsFuel]
  | succ f =>
    simp only [encDigitsFuel]
    split <;> simp

/-- Unfolding of `decChars` on a string of at least two characters. -/
theorem decChars_cons_cons (c c2 : Char) (cs : List Char) :
    decChars (c :: c2 :: cs) =
      match decVal c with
      | none => none
      | some d => (decChars (c2 :: cs)).map fun v => d + 36 * v := by
  simp only [decChars]
  cases decVal c <;> rfl

/-- Decoding inverts the digit expansion when the fuel suffices. -/
theorem decChars_encDigitsFuel (fuel : Nat) :
    ∀ n, n ≤ fuel → decChars ((encDigitsFuel fuel n).map digitChar36) = some n := by
  induction fuel with
  | zero =>
    intro n hn
    interval_cases n
    decide
  | succ f ih =>
    intro n hn
    by_cases h36 : n < 36
    · simp only [encDigitsFuel, if_pos h36, List.map_cons, List.map_nil]
      simp [decChars, decVal_digitChar36 h36]
    · simp only [encDigitsFuel, if_neg h36]
      push_neg at h36
      have hmod : n % 36 < 36 := Nat.mod_lt _ (by omega)
      have hdivle : n / 36 ≤ f := by
        have : n / 36 < n := Nat.div_lt_self (by omega) (by omega)
        omega
      have htail := ih (n / 36) hdivle
      obtain ⟨c, cs, hcons⟩ :
          ∃ c cs, encDigitsFuel f (n / 36) = c :: cs := by
        cases hh : encDigitsFuel f (n / 36) with
        | nil => exact absurd hh (encDigitsFuel_ne_nil f (n / 36))
        | cons c cs => exact ⟨c, cs, rfl⟩
      rw [hcons] at htail
      simp only [List.map_cons] at htail
      simp only [List.map_cons, hcons, decChars_cons_cons,
        decVal_digitChar36 hmod]
      rw [htail]
      simp only [Option.map_some']
      congr 1
      omega

/-- The Short-ID codec round-trips on every id, for every namespace. -/
theorem decode_encode_short (ns : Char) (n : Nat) :
    decode_short ns (encode_short ns n) = some n := by
  simp only [decode_short, encode_short, encDigits]
  show (if ns = ns then decChars ((encDigitsFuel n n).map digitChar36) else none)
      = some n
  rw [if_pos rfl]
  exact decChars_encDigitsFuel n n le_rfl

/-- The Short-ID encoder is injective within a namespace. -/
theorem encode_short_inj (ns : Char) {a b : Nat}
    (h : encode_short ns a = encode_short ns b) : a = b := by
  have ha := decode_encode_short ns a
  rw [h, decode_encode_short ns b] at ha
  exact (Option.some_injective _ ha).symm

def suppliedParamNames (args : List (String × List String)) : List String :=
  args.filterMap fun kv =>
    if pyStartsWith kv.1 "param_" && !kv.2.isEmpty then some (pyDrop kv.1 6)
    else none

theorem suppliedParamNames_cons (k : String) (v : List String)
    (rest : List (String × List String)) :
    suppliedParamNames ((k, v) :: rest) =
      if pyStartsWith k "param_" && !v.isEmpty then
        pyDrop k 6 :: suppliedParamNames rest
      else suppliedParamNames rest := by
  by_cases h : pyStartsWith k "param_" && !v.isEmpty
  · rw [if_pos h]
    simp only [suppliedParamNames, List.filterMap_cons]
    rw [if_pos h]
  · rw [if_neg h]
    conv_lhs => simp only [suppliedParamNames, List.filterMap_cons]
    rw [if_neg h]
    rfl

theorem filter_ne_filter_contains (name : String) (s : List String)
    (unset : List String) :
    ((unset.filter fun n => n ≠ name).filter fun n => !s.contains n)
      = unset.filter fun n => !((name :: s).contains n) := by
  rw [List.filter_filter]
  refine List.filter_congr fun a _ => ?_
  by_cases h1 : a = name <;> by_cases h2 : a ∈ s <;>
    simp [h1, h2, List.contains_cons]

theorem paramLoop_ok (params : List String) :
    ∀ (args : List (String × List String)) (values : List ParameterValue)
      (unset : List String),
    (∀ kv ∈ args, pyStartsWith kv.1 "param_" = true → kv.2.isEmpty = false →
      pyDrop kv.1 6 ∈ params) →
    ∃ values', paramLoop params args values unset =
      .ok (values', unset.filter fun n => !((suppliedParamNames args).contains n)) := by
  intro args
  induction args with
  | nil =>
    intro values unset h
    refine ⟨values, ?_⟩
    simp [paramLoop, suppliedParamNames]
  | cons kv rest ih =>
    intro values unset h
    obtain ⟨k, v⟩ := kv
    have htail := fun kv hkv => h kv (List.mem_cons_of_mem _ hkv)
    by_cases hpre : pyStartsWith k "param_"
    · by_cases hv : v.isEmpty
      · have hcond : (pyStartsWith k "param_" && !v.isEmpty) = false := by
          rw [hv]
          simp
        rw [suppliedParamNames_cons, hcond, if_neg (by simp)]
        simpa [paramLoop, hpre, hv] using ih values unset htail
      · have hve : v.isEmpty = false := by
          simpa using hv
        have hcond : (pyStartsWith k "param_" && !v.isEmpty) = true := by
          rw [hve, hpre]
          rfl
        have hmem : pyDrop k 6 ∈ params :=
          h (k, v) (List.mem_cons_self _ _) hpre hve
        rw [suppliedParamNames_cons, hcond, if_pos rfl]
        obtain ⟨values', hrec⟩ :=
          ih (values ++ [⟨pyDrop k 6, v.getLastD ""⟩])
            (unset.filter fun n => n ≠ pyDrop k 6) htail
        refine ⟨values', ?_⟩
        simp only [paramLoop, hpre, if_true, hve, Bool.false_eq_true, if_false,
          if_pos hmem]
        rw [hrec, filter_ne_filter_contains]
    · have hcond : (pyStartsWith k "param_" && !v.isEmpty) = false := by
        simp only [Bool.and_eq_false_iff]
        left
        simpa using hpre
      rw [suppliedParamNames_cons, hcond, if_neg (by simp)]
      simpa [paramLoop, hpre] using ih values unset htail


theorem paramLoop_unknown (params : List String) :
    ∀ (args : List (String × List String)) (values : List ParameterValue)
      (unset : List String),
    (∃ kv ∈ args, pyStartsWith kv.1 "param_" = true ∧ kv.2.isEmpty = false ∧
      pyDrop kv.1 6 ∉ params) →
    ∃ k vs, paramLoop params args values unset = .error (.unknownParameter k) ∧
      pyStartsWith k "param_" = true ∧ (k, vs) ∈ args ∧ vs.isEmpty = false ∧
      pyDrop k 6 ∉ params := by
  intro args
  induction args with
  | nil =>
    intro values unset h
    obtain ⟨kv, hmem, _⟩ := h
    exact absurd hmem (List.not_mem_nil kv)
  | cons kv rest ih =>
    intro values unset h
    obtain ⟨k, v⟩ := kv
    by_cases hpre : pyStartsWith k "param_"
    · by_cases hv : v.isEmpty
      · obtain ⟨kv', hmem', hkv'⟩ := h
        have hmem'' : kv' ∈ rest := by
          rcases List.mem_cons.mp hmem' with heq | hmem''
          · exfalso
            rw [heq] at hkv'
            rw [hv] at hkv'
            exact absurd hkv'.2.1 (by simp)
          · exact hmem''
        obtain ⟨k', vs', hloop, h1, h2, h3, h4⟩ :=
          ih values unset ⟨kv', hmem'', hkv'⟩
        refine ⟨k', vs', ?_, h1, List.mem_cons_of_mem _ h2, h3, h4⟩
        simpa [paramLoop, hpre, hv] using hloop
      · have hve : v.isEmpty = false := by simpa using hv
        by_cases hdecl : pyDrop k 6 ∈ params
        · obtain ⟨kv', hmem', hkv'⟩ := h
          have hmem'' : kv' ∈ rest := by
            rcases List.mem_cons.mp hmem' with heq | hmem''
            · exfalso
              rw [heq] at hkv'
              exact absurd hdecl hkv'.2.2
            · exact hmem''
          obtain ⟨k', vs', hloop, h1, h2, h3, h4⟩ :=
            ih (values ++ [⟨pyDrop k 6, v.getLastD ""⟩])
              (unset.filter fun n => n ≠ pyDrop k 6) ⟨kv', hmem'', hkv'⟩
          refine ⟨k', vs', ?_, h1, List.mem_cons_of_mem _ h2, h3, h4⟩
          simpa [paramLoop, hpre, hve, hdecl] using hloop
        · refine ⟨k, v, ?_, hpre, List.mem_cons_self _ _, hve, hdecl⟩
          simp [paramLoop, hpre, hve, hdecl]
    · obtain ⟨kv', hmem', hkv'⟩ := h
      have hmem'' : kv' ∈ rest := by
        rcases List.mem_cons.mp hmem' with heq | hmem''
        · exfalso
          rw [heq] at hkv'
          rw [hkv'.1] at hpre
          exact hpre rfl
        · exact hmem''
      obtain ⟨k', vs', hloop, h1, h2, h3, h4⟩ :=
        ih values unset ⟨kv', hmem'', hkv'⟩
      refine ⟨k', vs', ?_, h1, List.mem_cons_of_mem _ h2, h3, h4⟩
      simpa [paramLoop, hpre] using hloop

theorem fileLoop_ok (hashFn : String → String) (inputNames : List String) :
    ∀ (files : List (String × List String)) (rows : List InputFile)
      (blobs : List (String × String)),
    (∀ kv ∈ files, kv.2 ≠ [] → pyStartsWith kv.1 "inputfile_" = true ∧
      pyDrop kv.1 10 ∈ inputNames) →
    ∃ blobs' rows',
      fileLoop hashFn inputNames files rows blobs = (blobs', .ok rows') := by
  intro files
  induction files with
  | nil =>
    intro rows blobs h
    exact ⟨blobs, rows, rfl⟩
  | cons kv rest ih =>
    intro rows blobs h
    obtain ⟨k, bodies⟩ := kv
    have htail := fun kv hkv => h kv (List.mem_cons_of_mem _ hkv)
    cases bodies with
    | nil =>
      obtain ⟨blobs', rows', hrec⟩ := ih rows blobs htail
      exact ⟨blobs', rows', by simpa [fileLoop] using hrec⟩
    | cons body bs =>
      obtain ⟨hpre, hdecl⟩ :=
        h (k, body :: bs) (List.mem_cons_self _ _) (by simp)
      obtain ⟨blobs', rows', hrec⟩ :=
        ih (rows ++ [⟨hashFn body, pyDrop k 10, body.length⟩])
          (blobs ++ [("inputs", hashFn body)]) htail
      refine ⟨blobs', rows', ?_⟩
      simpa [fileLoop, hpre, hdecl] using hrec


/-- A ports token is valid when it parses as an integer in `[1, 65535]`. -/
def validPortToken (t : String) : Bool :=
  match pythonInt? t with
  | some p => decide (1 ≤ p ∧ p ≤ 65535)
  | none => false

theorem validPortToken_empty : validPortToken "" = false := by decide

theorem portLoop_ok :
    ∀ (tokens : List String) (acc : List RunPort),
    (∀ t ∈ tokens, pyStrip t = t) →
    (∀ t ∈ tokens, validPortToken t = true) →
    portLoop tokens acc =
      .ok (acc ++ tokens.map fun t => ⟨(pythonInt? t).getD 0⟩) := by
  intro tokens
  induction tokens with
  | nil =>
    intro acc _ _
    simp [portLoop]
  | cons t rest ih =>
    intro acc hstrip hvalid
    have hst : pyStrip t = t := hstrip t (List.mem_cons_self _ _)
    have hv : validPortToken t = true := hvalid t (List.mem_cons_self _ _)
    have hne : t ≠ "" := by
      intro he
      rw [he, validPortToken_empty] at hv
      exact Bool.false_ne_true hv
    obtain ⟨p, hp, hrange⟩ :
        ∃ p, pythonInt? t = some p ∧ (1 ≤ p ∧ p ≤ 65535) := by
      unfold validPortToken at hv
      cases hpi : pythonInt? t with
      | none => rw [hpi] at hv; exact absurd hv (by simp)
      | some p =>
        rw [hpi] at hv
        exact ⟨p, rfl, of_decide_eq_true hv⟩
    have hrec := ih (acc ++ [⟨p⟩])
      (fun x hx => hstrip x (List.mem_cons_of_mem _ hx))
      (fun x hx => hvalid x (List.mem_cons_of_mem _ hx))
    simp only [portLoop, hst, if_neg hne, hp, if_pos hrange]
    rw [hrec]
    simp [hp]

theorem portLoop_first_invalid :
    ∀ (tokens : List String) (acc : List RunPort) (t : String),
    (∀ x ∈ tokens, pyStrip x = x ∧ x ≠ "") →
    tokens.find? (fun x => !validPortToken x) = some t →
    portLoop tokens acc = .error (.invalidPort t) := by
  intro tokens
  induction tokens with
  | nil =>
    intro acc t _ hfind
    simp [List.find?] at hfind
  | cons x rest ih =>
    intro acc t hx hfind
    obtain ⟨hst, hne⟩ := hx x (List.mem_cons_self _ _)
    by_cases hv : validPortToken x
    · have hfind' : rest.find? (fun x => !validPortToken x) = some t := by
        rw [List.find?_cons] at hfind
        simpa [hv] using hfind
      obtain ⟨p, hp, hrange⟩ :
          ∃ p, pythonInt? x = some p ∧ (1 ≤ p ∧ p ≤ 65535) := by
        unfold validPortToken at hv
        cases hpi : pythonInt? x with
        | none => rw [hpi] at hv; exact absurd hv (by simp)
        | some p =>
          rw [hpi] at hv
          exact ⟨p, rfl, of_decide_eq_true hv⟩
      have hrec := ih (acc ++ [⟨p⟩]) t
        (fun y hy => hx y (List.mem_cons_of_mem _ hy)) hfind'
      simp only [portLoop, hst, if_neg hne, hp, if_pos hrange]
      exact hrec
    · have ht : t = x := by
        rw [List.find?_cons] at hfind
        have : (!validPortToken x) = true := by simpa using hv
        rw [this] at hfind
        simpa using hfind.symm
      subst ht
      simp only [portLoop, hst, if_neg hne]
      unfold validPortToken at hv
      cases hpi : pythonInt? t with
      | none => simp [hpi]
      | some p =>
        rw [hpi] at hv
        have : ¬(1 ≤ p ∧ p ≤ 65535) := by
          intro hr
          exact hv (by simpa using hr)
        simp [hpi, this]

theorem wsTokens_ne_nil :
    ∀ (l cur : List Char), [] ∉ wsTokens l cur := by
  intro l
  induction l with
  | nil =>
    intro cur
    simp only [wsTokens]
    by_cases hc : cur.isEmpty
    · simp [hc]
    · have : cur ≠ [] := by simpa [List.isEmpty_iff] using hc
      simp [hc, this]
  | cons c cs ih =>
    intro cur
    simp only [wsTokens]
    by_cases hw : c.isWhitespace
    · by_cases hc : cur.isEmpty
      · simp [hw, hc, ih []]
      · have hcur : cur ≠ [] := by simpa [List.isEmpty_iff] using hc
        simp only [hw, if_true, hc, if_false]
        intro hmem
        rcases List.mem_cons.mp hmem with heq | hmem'
        · exact hcur (by simpa using heq.symm)
        · exact ih [] hmem'
    · simp [hw, ih (c :: cur)]

theorem pySplitWs_ne_empty (s : String) :
    ∀ t ∈ pySplitWs s, t ≠ "" := by
  intro t ht he
  obtain ⟨cs, hcs, hmk⟩ := List.mem_map.mp ht
  have h1 : String.mk cs = "" := hmk.trans he
  have hcsnil : cs = [] := by
    have h2 := congrArg String.data h1
    simpa using h2
  exact wsTokens_ne_nil _ _ (hcsnil ▸ hcs)


/-- C5: For every Run status query, the reported (progressPercent,
progressText) pair follows the priority order: `done` forces
`(100, "Completed")` regardless of stored fields; otherwise a non-empty
stored progress text is returned with the stored percent; otherwise
`(0, "Queued")` when not started and `(40, "Starting")` when started. -/
theorem claim_C5_status_priority (run : Run) :
    resultsJsonStatus run =
      if run.done then (100, "Completed")
      else if run.progress_text ≠ "" then (run.progress_percent, run.progress_text)
      else if run.started then (40, "Starting")
      else (0, "Queued") := by
  unfold resultsJsonStatus
  by_cases hd : run.done
  · simp [hd]
  · by_cases ht : run.progress_text = ""
    · by_cases hs : run.started <;> simp [hd, ht, hs]
    · simp [hd, ht]

/-- C8: the per-run log is append-only and `get_log` is offset-monotone:
reading offset 0 of an empty log gives nothing; content already returned at
an offset is a prefix of any later read at that offset; after an append,
reading from the length of a prior full read returns exactly the appended
delta; and a full read after an append returns the whole concatenation. -/
theorem claim_C8_log_monotone (r : Run) (content : List Char) :
    (r.log = [] → r.get_log 0 = []) ∧
    (∀ off : Nat, ∃ delta,
      (r.appendLog content).get_log off = r.get_log off ++ delta) ∧
    (r.appendLog content).get_log (r.get_log 0).length = content ∧
    (r.appendLog content).get_log 0 = r.log ++ content := by
  refine ⟨fun h => by simp [Run.get_log, h], ?_, ?_, ?_⟩
  · intro off
    by_cases hoff : off ≤ r.log.length
    · refine ⟨content.drop (off - r.log.length), ?_⟩
      simp [Run.get_log, Run.appendLog, List.drop_append_eq_append_drop]
    · refine ⟨content.drop (off - r.log.length), ?_⟩
      have : r.log.drop off = [] := List.drop_eq_nil_of_le (by omega)
      simp [Run.get_log, Run.appendLog, List.drop_append_eq_append_drop, this]
  · simp [Run.get_log, Run.appendLog, List.drop_left]
  · simp [Run.get_log, Run.appendLog]

/-- Concrete run used by the C8 witness. -/
def runC8 : Run := ⟨1, "h", 1, "ip", [], [], [], false, false, 0, "", []⟩

theorem claim_C8_witness :
    runC8.get_log 0 = [] ∧
    (∃ delta, (runC8.appendLog "ok".toList).get_log 1
      = runC8.get_log 1 ++ delta) ∧
    (runC8.appendLog "ok".toList).get_log (runC8.get_log 0).length
      = "ok".toList ∧
    (runC8.appendLog "ok".toList).get_log 0 = runC8.log ++ "ok".toList :=
  ⟨(claim_C8_log_monotone runC8 "ok".toList).1 rfl,
    (claim_C8_log_monotone runC8 "ok".toList).2.1 1,
    (claim_C8_log_monotone runC8 "ok".toList).2.2.1,
    (claim_C8_log_monotone runC8 "ok".toList).2.2.2⟩


/-- C7: the Short-ID codec round-trips (`decode(encode(id)) = id`) for every
id and each entity namespace; in the results lookup a malformed Short-ID
yields the invalid-id error while a well-formed Short-ID with no matching
row yields the distinct not-found error. -/
theorem claim_C7_short_id_codec :
    (∀ ns n, decode_short ns (encode_short ns n) = some n) ∧
    (∀ (db : Db) (s : String), decode_short 'r' s = none →
      resultsJsonLookup db s = .error .invalidId) ∧
    (∀ (db : Db) (s : String) (i : Nat), decode_short 'r' s = some i →
      db.runs.find? (fun r => r.id = i) = none →
      resultsJsonLookup db s = .error .notFound) ∧
    LookupError.invalidId ≠ LookupError.notFound := by
  refine ⟨decode_encode_short, ?_, ?_, by simp⟩
  · intro db s h
    simp [resultsJsonLookup, h]
  · intro db s i h hfind
    simp [resultsJsonLookup, h, hfind]

theorem claim_C7_witness :
    decode_short 'r' (encode_short 'r' 42) = some 42 ∧
    resultsJsonLookup ⟨[], [], [], 0, 0, []⟩ "!" = .error .invalidId ∧
    resultsJsonLookup ⟨[], [], [], 0, 0, []⟩ (encode_short 'r' 42)
      = .error .notFound ∧
    LookupError.invalidId ≠ LookupError.notFound :=
  ⟨claim_C7_short_id_codec.1 'r' 42,
    claim_C7_short_id_codec.2.1 _ "!" (by decide),
    claim_C7_short_id_codec.2.2.1 _ _ 42 (by decide) rfl,
    claim_C7_short_id_codec.2.2.2⟩

/-- C4: if the metadata extractor rejects the package bytes during
store-or-get on a novel hash, the operation fails with the invalid-package
error and nothing is persisted: the database, including the experiment and
upload tables and the object store, is returned unchanged. -/
theorem claim_C4_invalid_package_nothing_persisted
    (meta : String → String → Option (List ParamSpec × List PathRow))
    (db : Db) (filename filehash orig_filename remote_ip : String) (now : Nat)
    (hnovel : db.experiments.find? (fun e => e.hash = filehash) = none)
    (hreject : meta filehash filename = none) :
    store_uploaded_rpz meta db filename filehash orig_filename remote_ip now
      = (db, .error .invalidPackage) := by
  simp [store_uploaded_rpz, hnovel, make_experiment, hreject]

theorem claim_C4_witness :
    store_uploaded_rpz (fun _ _ => none) ⟨[], [], [], 0, 0, []⟩
      "/tmp/up" "h1" "orig.rpz" "ip" 3
      = (⟨[], [], [], 0, 0, []⟩, .error .invalidPackage) :=
  claim_C4_invalid_package_nothing_persisted _ _ _ _ _ _ _ rfl rfl


/-- C2: when every supplied parameter is declared, but mandatory parameters
remain unsatisfied after processing all supplied parameters, run creation
fails with a missing-parameter error listing all of the still-unsatisfied
mandatory names. -/
theorem claim_C2_missing_lists_all (hashFn : String → String)
    (exp : Experiment) (args files : List (String × List String))
    (hdecl : ∀ kv ∈ args, pyStartsWith kv.1 "param_" = true →
      kv.2.isEmpty = false → pyDrop kv.1 6 ∈ declaredParamNames exp)
    (hmiss : (mandatoryParamNames exp).filter
      (fun n => !((suppliedParamNames args).contains n)) ≠ []) :
    (startRunValidate hashFn exp args files).2
      = .error (.missingParameters ((mandatoryParamNames exp).filter
          fun n => !((suppliedParamNames args).contains n))) := by
  obtain ⟨values', hloop⟩ :=
    paramLoop_ok (declaredParamNames exp) args [] (mandatoryParamNames exp) hdecl
  have hne : ((mandatoryParamNames exp).filter
      fun n => !((suppliedParamNames args).contains n)).isEmpty = false := by
    simpa [List.isEmpty_iff] using hmiss
  have hcond : ¬(((mandatoryParamNames exp).filter
      fun n => !((suppliedParamNames args).contains n)).isEmpty = true) := by
    rw [hne]
    simp
  simp only [startRunValidate, hloop]
  rw [if_neg hcond]

theorem claim_C2_witness :
    (startRunValidate (fun s => s)
      ⟨"h", [⟨"a", false⟩, ⟨"b", true⟩], [], 0⟩
      [("param_b", ["1"])] []).2
      = .error (.missingParameters ["a"]) := by
  have h := claim_C2_missing_lists_all (fun s => s)
    ⟨"h", [⟨"a", false⟩, ⟨"b", true⟩], [], 0⟩
    [("param_b", ["1"])] [] (by decide) (by decide)
  simpa using h

/-- C9: a supplied parameter key (with a non-empty value) whose name is not
among the declared parameter names makes run creation fail with an
unknown-parameter error naming such a key, which is itself supplied and
undeclared. -/
theorem claim_C9_unknown_parameter (hashFn : String → String)
    (exp : Experiment) (args files : List (String × List String))
    (h : ∃ kv ∈ args, pyStartsWith kv.1 "param_" = true ∧
      kv.2.isEmpty = false ∧ pyDrop kv.1 6 ∉ declaredParamNames exp) :
    ∃ k vs, (startRunValidate hashFn exp args files).2
        = .error (.unknownParameter k) ∧
      pyStartsWith k "param_" = true ∧ (k, vs) ∈ args ∧ vs.isEmpty = false ∧
      pyDrop k 6 ∉ declaredParamNames exp := by
  obtain ⟨k, vs, hloop, h1, h2, h3, h4⟩ :=
    paramLoop_unknown (declaredParamNames exp) args [] (mandatoryParamNames exp) h
  refine ⟨k, vs, ?_, h1, h2, h3, h4⟩
  unfold startRunValidate
  rw [hloop]

theorem claim_C9_witness :
    ∃ k vs, (startRunValidate (fun s => s) ⟨"h", [⟨"a", false⟩], [], 0⟩
        [("param_a", ["1"]), ("param_c", ["2"])] []).2
        = .error (.unknownParameter k) ∧
      pyStartsWith k "param_" = true ∧
      (k, vs) ∈ [("param_a", ["1"]), ("param_c", ["2"])] ∧
      vs.isEmpty = false ∧
      pyDrop k 6 ∉ declaredParamNames ⟨"h", [⟨"a", false⟩], [], 0⟩ :=
  claim_C9_unknown_parameter (fun s => s) ⟨"h", [⟨"a", false⟩], [], 0⟩
    [("param_a", ["1"]), ("param_c", ["2"])] []
    ⟨("param_c", ["2"]), by decide, by decide, by decide, by decide⟩


theorem paramLoop_remove_empty (params : List String) (k : String)
    (args2 : List (String × List String)) (hpre : pyStartsWith k "param_" = true) :
    ∀ (args1 : List (String × List String)) (values : List ParameterValue)
      (unset : List String),
    paramLoop params (args1 ++ (k, []) :: args2) values unset
      = paramLoop params (args1 ++ args2) values unset := by
  intro args1
  induction args1 with
  | nil =>
    intro values unset
    simp [paramLoop, hpre]
  | cons kv rest ih =>
    intro values unset
    obtain ⟨k', v'⟩ := kv
    by_cases hpre' : pyStartsWith k' "param_"
    · by_cases hv' : v'.isEmpty
      · simp only [List.cons_append, paramLoop, hpre', if_true, hv']
        exact ih values unset
      · have hve' : v'.isEmpty = false := by simpa using hv'
        by_cases hdecl : pyDrop k' 6 ∈ params
        · simp only [List.cons_append, paramLoop, hpre', if_true, hve',
            Bool.false_eq_true, if_false, if_pos hdecl]
          exact ih _ _
        · simp only [List.cons_append, paramLoop, hpre', if_true, hve',
            Bool.false_eq_true, if_false, if_neg hdecl]
    · simp only [List.cons_append, paramLoop, hpre']
      exact ih values unset

theorem find?_ports_remove_empty (k : String) (v : List String)
    (args2 : List (String × List String)) (hne : k ≠ "ports") :
    ∀ args1 : List (String × List String),
    (args1 ++ (k, v) :: args2).find? (fun kv => kv.1 = "ports")
      = (args1 ++ args2).find? (fun kv => kv.1 = "ports") := by
  intro args1
  induction args1 with
  | nil => simp [List.find?_cons, hne]
  | cons kv rest ih =>
    by_cases h : kv.1 = "ports" <;>
      simp [List.find?_cons, h, ih]

/-- C10: a request parameter supplied with an empty value list is skipped
entirely by run creation: the whole validation behaves as if the entry were
absent (so it triggers no unknown-parameter check and stages no
`ParameterValue`), and a mandatory parameter supplied only with an empty
value still produces the missing-parameter failure. -/
theorem claim_C10_empty_value_skipped :
    (∀ (hashFn : String → String) (exp : Experiment)
      (args1 args2 files : List (String × List String)) (k : String),
      pyStartsWith k "param_" = true →
      startRunValidate hashFn exp (args1 ++ (k, []) :: args2) files
        = startRunValidate hashFn exp (args1 ++ args2) files) ∧
    (∀ (hashFn : String → String) (hash : String) (paths : List PathRow)
      (t : Nat) (files : List (String × List String)),
      (startRunValidate hashFn ⟨hash, [⟨"a", false⟩], paths, t⟩
        [("param_a", [])] files).2 = .error (.missingParameters ["a"])) := by
  constructor
  · intro hashFn exp args1 args2 files k hpre
    have hkne : k ≠ "ports" := by
      intro he
      rw [he] at hpre
      exact absurd hpre (by decide)
    unfold startRunValidate
    rw [paramLoop_remove_empty _ _ _ hpre]
    unfold getBodyArgument
    rw [find?_ports_remove_empty _ _ _ hkne]
  · intro hashFn hash paths t files
    have hpre : pyStartsWith "param_a" "param_" = true := by decide
    simp only [startRunValidate, paramLoop, hpre, if_true, List.isEmpty_nil]
    simp [mandatoryParamNames, declaredParamNames]

theorem claim_C10_witness :
    startRunValidate (fun s => s) ⟨"h", [⟨"a", false⟩], [], 0⟩
      ([("param_x", [])] ++ [("param_a", ["1"])]) []
      = startRunValidate (fun s => s) ⟨"h", [⟨"a", false⟩], [], 0⟩
        ([] ++ [("param_a", ["1"])]) [] ∧
    (startRunValidate (fun s => s) ⟨"h", [⟨"a", false⟩], [], 0⟩
      [("param_a", [])] []).2 = .error (.missingParameters ["a"]) := by
  constructor
  · exact claim_C10_empty_value_skipped.1 (fun s => s)
      ⟨"h", [⟨"a", false⟩], [], 0⟩ [] [("param_a", ["1"])] [] "param_x"
      (by decide)
  · exact claim_C10_empty_value_skipped.2 (fun s => s) "h" [] 0 []


/-- C6: requested ports are the whitespace-separated tokens of the `ports`
body argument; provided the earlier validation steps pass, a first token
that does not parse as an integer in `[1, 65535]` fails the operation with
an invalid-port error citing that token, and when every token is valid the
run is created with one `RunPort` per token carrying its parsed value. -/
theorem claim_C6_port_validation (hashFn : String → String)
    (exp : Experiment) (args files : List (String × List String))
    (hdecl : ∀ kv ∈ args, pyStartsWith kv.1 "param_" = true →
      kv.2.isEmpty = false → pyDrop kv.1 6 ∈ declaredParamNames exp)
    (hnomiss : (mandatoryParamNames exp).filter
      (fun n => !((suppliedParamNames args).contains n)) = [])
    (hfiles : ∀ kv ∈ files, kv.2 ≠ [] →
      pyStartsWith kv.1 "inputfile_" = true ∧ pyDrop kv.1 10 ∈ inputFileNames exp)
    (htrim : ∀ t ∈ pySplitWs (getBodyArgument args "ports" ""), pyStrip t = t) :
    ((∀ t ∈ pySplitWs (getBodyArgument args "ports" ""),
        validPortToken t = true) →
      ∃ staged, (startRunValidate hashFn exp args files).2 = .ok staged ∧
        staged.ports = (pySplitWs (getBodyArgument args "ports" "")).map
          fun t => ⟨(pythonInt? t).getD 0⟩) ∧
    (∀ t, (pySplitWs (getBodyArgument args "ports" "")).find?
        (fun x => !validPortToken x) = some t →
      (startRunValidate hashFn exp args files).2
        = .error (.invalidPort t)) := by
  obtain ⟨values', hloop⟩ :=
    paramLoop_ok (declaredParamNames exp) args [] (mandatoryParamNames exp) hdecl
  have hempty : ((mandatoryParamNames exp).filter
      fun n => !((suppliedParamNames args).contains n)).isEmpty = true := by
    rw [hnomiss]
    rfl
  obtain ⟨blobs', rows', hfl⟩ :=
    fileLoop_ok hashFn (inputFileNames exp) files [] [] hfiles
  constructor
  · intro hvalid
    have hports := portLoop_ok (pySplitWs (getBodyArgument args "ports" ""))
      [] htrim hvalid
    refine ⟨⟨values', rows', (pySplitWs (getBodyArgument args "ports" "")).map
      fun t => ⟨(pythonInt? t).getD 0⟩⟩, ?_, rfl⟩
    simp only [startRunValidate, hloop, if_pos hempty, hfl, hports,
      List.nil_append]
  · intro t hfind
    have hports := portLoop_first_invalid
      (pySplitWs (getBodyArgument args "ports" "")) [] t
      (fun x hx => ⟨htrim x hx, pySplitWs_ne_empty _ x hx⟩) hfind
    simp only [startRunValidate, hloop, if_pos hempty, hfl, hports]

theorem claim_C6_witness :
    (∃ staged, (startRunValidate (fun s => s) ⟨"h", [], [], 0⟩
        [("ports", ["80 443"])] []).2 = .ok staged ∧
      staged.ports = (pySplitWs
        (getBodyArgument [("ports", ["80 443"])] "ports" "")).map
          fun t => ⟨(pythonInt? t).getD 0⟩) ∧
    (startRunValidate (fun s => s) ⟨"h", [], [], 0⟩
      [("ports", ["80 99999"])] []).2 = .error (.invalidPort "99999") := by
  constructor
  · exact (claim_C6_port_validation (fun s => s) ⟨"h", [], [], 0⟩
      [("ports", ["80 443"])] [] (by decide) (by decide)
      (fun kv h => absurd h (List.not_mem_nil kv)) (by decide)).1 (by decide)
  · exact (claim_C6_port_validation (fun s => s) ⟨"h", [], [], 0⟩
      [("ports", ["80 99999"])] [] (by decide) (by decide)
      (fun kv h => absurd h (List.not_mem_nil kv)) (by decide)).2 "99999"
      (by decide)


/-- C1: run creation is atomic with respect to validation.  A validation
failure (the `serverError` outcome) leaves the run, upload and experiment
tables exactly as they were — no `Run` row and hence none of its
`ParameterValue`/`InputFile`/`RunPort` children is persisted — and a 404
outcome changes nothing at all; only the successful outcome persists state,
and it appends exactly one `Run` row carrying all the staged children in a
single commit. -/
theorem claim_C1_run_creation_atomic (hashFn : String → String) (db : Db)
    (upload_short_id : String) (args files : List (String × List String))
    (remote_ip : String) (now : Nat) :
    match startRunPost hashFn db upload_short_id args files remote_ip now with
    | (db', .notFound) => db' = db
    | (db', .serverError _) =>
      db'.runs = db.runs ∧ db'.uploads = db.uploads ∧
        db'.experiments = db.experiments
    | (db', .redirect _) => ∃ run, db'.runs = db.runs ++ [run] := by
  cases hdec : decode_short 'u' upload_short_id with
  | none => simp [startRunPost, hdec]
  | some uid =>
    cases hup : db.uploads.find? (fun u => u.id = uid) with
    | none => simp [startRunPost, hdec, hup]
    | some u =>
      cases hexp : db.experiments.find? (fun e => e.hash = u.experiment_hash) with
      | none => simp [startRunPost, hdec, hup, hexp]
      | some exp =>
        rcases hval : startRunValidate hashFn exp args files with ⟨blobs, res⟩
        cases res with
        | error e => simp [startRunPost, hdec, hup, hexp, hval]
        | ok staged =>
          simp only [startRunPost, hdec, hup, hexp, hval]
          exact ⟨_, rfl⟩


theorem find?_append_of_none {α : Type} (p : α → Bool) {l1 : List α}
    (l2 : List α) (h : l1.find? p = none) :
    (l1 ++ l2).find? p = l2.find? p := by
  induction l1 with
  | nil => rfl
  | cons a l ih =>
    cases hp : p a with
    | true => simp [List.find?_cons, hp] at h
    | false =>
      simp only [List.find?_cons, hp] at h
      simp only [List.cons_append, List.find?_cons, hp]
      exact ih h

theorem filter_touch_of_no_match (fh : String) (now' : Nat) :
    ∀ l : List Experiment, (∀ x ∈ l, ¬(x.hash = fh)) →
    (l.map fun x =>
      if x.hash = fh then { x with last_access := now' } else x).filter
        (fun x => x.hash = fh) = [] := by
  intro l
  induction l with
  | nil => intro _; rfl
  | cons a rest ih =>
    intro h
    have ha : ¬(a.hash = fh) := h a (List.mem_cons_self _ _)
    simp only [List.map_cons, if_neg ha, List.filter_cons, decide_eq_true_eq,
      if_neg ha]
    exact ih fun x hx => h x (List.mem_cons_of_mem _ hx)

/-- C3: content-level dedup.  Storing a package whose hash already has an
Experiment touches only that experiment's last-access, does not re-upload
the blob, does not consult the metadata extractor, and still registers a
fresh Upload row; storing the same bytes twice starting from a state
without the hash yields exactly one Experiment for the hash and two Upload
rows with distinct Short-IDs, both referencing it. -/
theorem claim_C3_content_dedup :
    (∀ (meta meta' : String → String → Option (List ParamSpec × List PathRow))
      (db : Db) (fn fh ofn ip : String) (now : Nat) (e : Experiment),
      db.experiments.find? (fun x => x.hash = fh) = some e →
      (store_uploaded_rpz meta db fn fh ofn ip now).1.blobs = db.blobs ∧
      (store_uploaded_rpz meta db fn fh ofn ip now).1.experiments
        = db.experiments.map (fun x =>
            if x.hash = fh then { x with last_access := now } else x) ∧
      (store_uploaded_rpz meta db fn fh ofn ip now).1.uploads
        = db.uploads ++ [⟨db.nextUploadId, fh, ofn, ip, now⟩] ∧
      (store_uploaded_rpz meta db fn fh ofn ip now).2
        = .ok (encode_short 'u' db.nextUploadId) ∧
      store_uploaded_rpz meta db fn fh ofn ip now
        = store_uploaded_rpz meta' db fn fh ofn ip now) ∧
    (∀ (meta : String → String → Option (List ParamSpec × List PathRow))
      (db : Db) (fn fh ofn ip : String) (now now' : Nat)
      (d : List ParamSpec × List PathRow),
      db.experiments.find? (fun x => x.hash = fh) = none →
      meta fh fn = some d →
      ((store_uploaded_rpz meta
          (store_uploaded_rpz meta db fn fh ofn ip now).1
          fn fh ofn ip now').1.experiments.filter
        (fun x => x.hash = fh)).length = 1 ∧
      ∃ u1 u2,
        (store_uploaded_rpz meta
          (store_uploaded_rpz meta db fn fh ofn ip now).1
          fn fh ofn ip now').1.uploads = db.uploads ++ [u1, u2] ∧
        u1.experiment_hash = fh ∧ u2.experiment_hash = fh ∧
        u1.short_id ≠ u2.short_id) := by
  constructor
  · intro meta meta' db fn fh ofn ip now e hfound
    refine ⟨?_, ?_, ?_, ?_, ?_⟩ <;>
      simp [store_uploaded_rpz, hfound, Upload.short_id]
  · intro meta db fn fh ofn ip now now' d hnone hmeta
    have hst1 : store_uploaded_rpz meta db fn fh ofn ip now
        = ({ db with
              experiments := db.experiments ++ [⟨fh, d.1, d.2, now⟩]
              blobs := db.blobs ++ [("experiments", fh)]
              uploads := db.uploads ++ [⟨db.nextUploadId, fh, ofn, ip, now⟩]
              nextUploadId := db.nextUploadId + 1 },
            .ok (encode_short 'u' db.nextUploadId)) := by
      simp [store_uploaded_rpz, hnone, make_experiment, hmeta, Upload.short_id]
    have hfind2 : (db.experiments ++ [(⟨fh, d.1, d.2, now⟩ : Experiment)]).find?
        (fun x => x.hash = fh) = some ⟨fh, d.1, d.2, now⟩ := by
      rw [find?_append_of_none _ _ hnone]
      simp
    rw [hst1]
    have hnomatch : ∀ x ∈ db.experiments, ¬(x.hash = fh) := by
      intro x hx
      have := List.find?_eq_none.mp hnone x hx
      simpa using this
    constructor
    · simp only [store_uploaded_rpz, hfind2]
      simp only [List.map_append, List.filter_append]
      rw [filter_touch_of_no_match fh now' db.experiments hnomatch]
      simp
    · refine ⟨⟨db.nextUploadId, fh, ofn, ip, now⟩,
        ⟨db.nextUploadId + 1, fh, ofn, ip, now'⟩, ?_, rfl, rfl, ?_⟩
      · simp only [store_uploaded_rpz, hfind2]
        simp
      · intro heq
        have h2 : db.nextUploadId = db.nextUploadId + 1 :=
          encode_short_inj 'u' heq
        omega


/-- Database with one stored experiment, used by the C3 witness. -/
def dbC3 : Db := ⟨[⟨"hx", [], [], 0⟩], [], [], 5, 0, []⟩

/-- Empty database used by the C3 witness. -/
def dbC3e : Db := ⟨[], [], [], 0, 0, []⟩

/-- Metadata extractor accepting everything, used by the C3 witness. -/
def metaC3 : String → String → Option (List ParamSpec × List PathRow) :=
  fun _ _ => some ([], [])

theorem claim_C3_witness :
    ((store_uploaded_rpz (fun _ _ => none) dbC3 "/tmp/f" "hx" "orig" "ip" 9).1.blobs
        = dbC3.blobs ∧
      (store_uploaded_rpz (fun _ _ => none) dbC3 "/tmp/f" "hx" "orig" "ip" 9).2
        = .ok (encode_short 'u' dbC3.nextUploadId)) ∧
    (((store_uploaded_rpz metaC3
        (store_uploaded_rpz metaC3 dbC3e "/tmp/f" "hy" "o" "ip" 1).1
        "/tmp/f" "hy" "o" "ip" 2).1.experiments.filter
          (fun x => x.hash = "hy")).length = 1 ∧
      ∃ u1 u2,
        (store_uploaded_rpz metaC3
          (store_uploaded_rpz metaC3 dbC3e "/tmp/f" "hy" "o" "ip" 1).1
          "/tmp/f" "hy" "o" "ip" 2).1.uploads = dbC3e.uploads ++ [u1, u2] ∧
        u1.experiment_hash = "hy" ∧ u2.experiment_hash = "hy" ∧
        u1.short_id ≠ u2.short_id) := by
  constructor
  · have h := claim_C3_content_dedup.1 (fun _ _ => none) metaC3 dbC3
      "/tmp/f" "hx" "orig" "ip" 9 ⟨"hx", [], [], 0⟩ (by decide)
    exact ⟨h.1, h.2.2.2.1⟩
  · have h := claim_C3_content_dedup.2 metaC3 dbC3e
      "/tmp/f" "hy" "o" "ip" 1 2 ([], []) rfl rfl
    exact h


end Reproserver
